import Mathlib

/-!
Verification development for the price-extraction core of the Investments
repository (`prices_fetcher.py` and `prices_updater.py`).

Modelling conventions of this shallow embedding:
* Page text and all strings are `List Char` (Unicode code points, matching
  Python `str`), string literals entering via `String.data`.
* Python `float` values are modelled as exact rationals `ℚ`; the float
  literal `0.01` is `1/100`, and Python `round(x, 6)` is modelled as exact
  half-to-even rounding at six decimal places (`round6`).
* A fallible operation (`float(...)` under `try/except`, a regex search that
  may fail) is an `Option`; an uncaught Python exception is `Except.error`.
* The HTTP transport and the HTML-to-text reducer are external collaborators:
  they are modelled by an environment `List Char → FetchOutcome` mapping a
  URL to a transport failure or to a status code with the reduced visible
  text and the raw body.
* The regular expressions of the source are embedded as terms of a small
  regex AST `RE`, matched by a backtracking matcher `matchRE` implementing
  leftmost search with Python's greedy/lazy priority, optional
  case-insensitivity (`re.I`, ASCII case folding) and DOTALL `.`.
-/

/-! ### Basic string helpers -/

/-- ASCII lowercasing of one character, modelling `str.lower` on the
character repertoire these pages use (ASCII letters; Hebrew has no case). -/
def lowerChar (c : Char) : Char :=
  if 65 ≤ c.toNat ∧ c.toNat ≤ 90 then Char.ofNat (c.toNat + 32) else c

/-- `str.lower`. -/
def pyLower (s : List Char) : List Char := s.map lowerChar

/-- `str.strip()`: remove leading and trailing whitespace. -/
def pyStrip (s : List Char) : List Char :=
  ((s.dropWhile Char.isWhitespace).reverse.dropWhile Char.isWhitespace).reverse

/-- Python's substring test `pat in s`. -/
def containsSub : List Char → List Char → Bool
  | pat, [] => pat.isPrefixOf []
  | pat, c :: rest => pat.isPrefixOf (c :: rest) || containsSub pat rest

/-- Leftmost index of a substring: Python `s.find(pat)` (None for -1). -/
def indexOfSub : List Char → List Char → Option Nat
  | pat, [] => if pat.isPrefixOf [] then some 0 else none
  | pat, c :: rest =>
    if pat.isPrefixOf (c :: rest) then some 0
    else (indexOfSub pat rest).map (· + 1)

/-! ### Python `float` parsing and the Numeric Normalizer (`_clean_number`) -/

/-- Numeric value of a digit string (most significant first). -/
def digitsVal (l : List Char) : ℕ :=
  l.foldl (fun a c => a * 10 + (c.toNat - 48)) 0

/-- `float(t)` for a token over the alphabet digits, `.` (at most one) —
the only alphabet reaching the parse in `_clean_number` after the sign is
taken off.  Fails (`None`) exactly when Python's `float` would raise. -/
def pyFloatUnsigned (t : List Char) : Option ℚ :=
  let ip := t.takeWhile (fun c => c ≠ '.')
  let rest := t.dropWhile (fun c => c ≠ '.')
  if ip.all Char.isDigit then
    match rest with
    | [] => if ip.isEmpty then none else some (digitsVal ip)
    | _ :: frac =>
      if frac.all Char.isDigit && !(ip.isEmpty && frac.isEmpty) then
        some ((digitsVal ip : ℚ) + (digitsVal frac : ℚ) / (10 : ℚ) ^ frac.length)
      else none
  else none

/-- `float(t)` with an optional leading minus sign (a leading `+` cannot
survive the character filter of `_clean_number`). -/
def pyFloat : List Char → Option ℚ
  | '-' :: rest => (pyFloatUnsigned rest).map (fun v => -v)
  | t => pyFloatUnsigned t

/-- The character class kept by `re.sub(r"[^\d\.,\-]", "", ...)`
(`\d` taken as the ASCII digits occurring on these pages). -/
def keepNumChar (c : Char) : Bool :=
  c.isDigit || c = '.' || c = ',' || c = '-'

/-- The stripped-and-filtered token `t` of `_clean_number`. -/
def cleanFilter (s : List Char) : List Char :=
  (pyStrip s).filter keepNumChar

/-- The comma/dot resolution of `_clean_number`:
both present → drop commas; comma only → comma becomes the decimal point;
otherwise drop commas (a no-op). -/
def commaDotResolve (t : List Char) : List Char :=
  if t.contains ',' && t.contains '.' then t.filter (fun c => c ≠ ',')
  else if t.contains ',' && !t.contains '.' then
    t.map (fun c => if c = ',' then '.' else c)
  else t.filter (fun c => c ≠ ',')

/-- `_clean_number` (prices_fetcher.py): the Numeric Normalizer.
`None` input is represented by the caller never calling it; a falsy (empty)
string returns `None`, and a failed `float` parse is caught and returns
`None`. -/
def cleanNumber (txt : List Char) : Option ℚ :=
  if txt.isEmpty then none
  else pyFloat (commaDotResolve (cleanFilter txt))

/-! ### `round(x, 6)` -/

/-- Mathematical floor of a rational (the denominator is positive). -/
def ratFloorZ (q : ℚ) : ℤ := q.num.fdiv q.den

/-- Round to the nearest integer, ties to even — Python's rounding mode. -/
def roundHalfEvenZ (x : ℚ) : ℤ :=
  if x - ratFloorZ x < 1/2 then ratFloorZ x
  else if (1/2 : ℚ) < x - ratFloorZ x then ratFloorZ x + 1
  else if ratFloorZ x % 2 = 0 then ratFloorZ x else ratFloorZ x + 1

/-- Python `round(x, 6)` on the exact-rational model of float values. -/
def round6 (x : ℚ) : ℚ := (roundHalfEvenZ (x * 1000000) : ℚ) / 1000000

/-! ### A small regex engine

Each regex of the source is embedded as a term of `RE`.  `matchRE` is a
CPS backtracking matcher giving Python's priority semantics: alternatives
left to right, greedy repetition tries longer first, lazy shorter first;
`reSearch` then scans start positions left to right, so the returned match
is the leftmost one, with priority deciding its extent and captures. -/

/-- Character classes occurring in the source's patterns. -/
inductive CC where
  | any           -- `.` under re.DOTALL
  | digit         -- `\d` (ASCII digits as occurring on these pages)
  | digitDotComma -- `[0-9\.,]`
  | nonDigit      -- `[^0-9]`
  | ws            -- `\s`
  | commaWs       -- `[,\s]`
deriving DecidableEq

def CC.mem : CC → Char → Bool
  | .any, _ => true
  | .digit, c => c.isDigit
  | .digitDotComma, c => c.isDigit || c = '.' || c = ','
  | .nonDigit, c => !c.isDigit
  | .ws, c => c.isWhitespace
  | .commaWs, c => c = ',' || c.isWhitespace

/-- Regex AST.  Repetition is over a character class (`starG`/`starL`/
`plusG`/`repUpTo`) exactly as in the embedded patterns; bounded repetition
of composite bodies is written with nested `opt`, which has the same
greedy priority order. -/
inductive RE where
  | eps
  | ch (c : Char)
  | cls (cc : CC)
  | seq (a b : RE)
  | alt (a b : RE)
  | starG (cc : CC)          -- greedy `X*` over a class
  | starL (cc : CC)          -- lazy `X*?` over a class
  | plusG (cc : CC)          -- greedy `X+` over a class
  | repUpTo (cc : CC) (n : ℕ) -- greedy `X{0,n}` over a class
  | opt (a : RE)             -- greedy `(?:a)?`
  | grp (i : ℕ) (a : RE)     -- capture group number `i`
  | bnd                      -- `\b`

/-- One pattern character against one text character (`re.I` when `ci`). -/
def charMatches (ci : Bool) (pc c : Char) : Bool :=
  if ci then lowerChar pc = lowerChar c else pc = c

/-- Length of the maximal run of class characters at the head. -/
def runLen (cc : CC) : List Char → ℕ
  | [] => 0
  | c :: rest => if cc.mem c then runLen cc rest + 1 else 0

/-- Try candidate repetition counts in priority order. -/
def tryCounts {α : Type} (f : ℕ → Option α) : List ℕ → Option α
  | [] => none
  | n :: rest => match f n with
    | some r => some r
    | none => tryCounts f rest

/-- Python `\w` for the character repertoire of these pages: ASCII
alphanumerics, underscore, and the Hebrew letter block. -/
def isWordChar (c : Char) : Bool :=
  c.isAlphanum || c = '_' || (0x5D0 ≤ c.toNat && c.toNat ≤ 0x5EA)

/-- Captures recorded along the successful continuation: group index paired
with the captured characters. -/
abbrev Caps := List (ℕ × List Char)

/-- The matcher.  `full` is the whole subject (needed by `\b`), `s` the
remaining suffix; on success the continuation receives the rest of the
subject and the captures. -/
def matchRE (full : List Char) (ci : Bool) :
    RE → List Char → Caps → (List Char → Caps → Option (List Char × Caps)) →
    Option (List Char × Caps)
  | .eps, s, caps, k => k s caps
  | .ch c, s, caps, k =>
    match s with
    | [] => none
    | x :: rest => if charMatches ci c x then k rest caps else none
  | .cls cc, s, caps, k =>
    match s with
    | [] => none
    | x :: rest => if cc.mem x then k rest caps else none
  | .seq a b, s, caps, k =>
    matchRE full ci a s caps (fun s2 c2 => matchRE full ci b s2 c2 k)
  | .alt a b, s, caps, k =>
    match matchRE full ci a s caps k with
    | some r => some r
    | none => matchRE full ci b s caps k
  | .starG cc, s, caps, k =>
    tryCounts (fun i => k (s.drop i) caps) (List.range (runLen cc s + 1)).reverse
  | .starL cc, s, caps, k =>
    tryCounts (fun i => k (s.drop i) caps) (List.range (runLen cc s + 1))
  | .plusG cc, s, caps, k =>
    tryCounts (fun i => k (s.drop i) caps)
      (((List.range (runLen cc s)).map (· + 1)).reverse)
  | .repUpTo cc n, s, caps, k =>
    tryCounts (fun i => k (s.drop i) caps)
      (List.range (min (runLen cc s) n + 1)).reverse
  | .opt a, s, caps, k =>
    match matchRE full ci a s caps k with
    | some r => some r
    | none => k s caps
  | .grp i a, s, caps, k =>
    matchRE full ci a s caps
      (fun s2 c2 => k s2 (c2 ++ [(i, s.take (s.length - s2.length))]))
  | .bnd, s, caps, k =>
    let pos := full.length - s.length
    let prevW := if pos = 0 then false else
      match full.get? (pos - 1) with
      | some c => isWordChar c
      | none => false
    let curW := match s with
      | [] => false
      | c :: _ => isWordChar c
    if prevW ≠ curW then k s caps else none

/-- Try `re` at every start position, leftmost first: `re.search`.
On success returns the match span `(start, stop)` and the captures. -/
def reSearchAux (full : List Char) (ci : Bool) (re : RE) :
    List ℕ → Option (ℕ × ℕ × Caps)
  | [] => none
  | i :: rest =>
    let s := full.drop i
    match matchRE full ci re s [] (fun s2 c2 => some (s2, c2)) with
    | some (s2, caps) => some (i, i + (s.length - s2.length), caps)
    | none => reSearchAux full ci re rest

/-- `re.search(re, full)`. -/
def reSearch (full : List Char) (ci : Bool) (re : RE) : Option (ℕ × ℕ × Caps) :=
  reSearchAux full ci re (List.range (full.length + 1))

/-- A sequence of literal characters. -/
def litsOf (s : List Char) : RE :=
  s.foldr (fun c r => RE.seq (RE.ch c) r) RE.eps

/-- Group indices of a pattern, in source order. -/
def groupIds : RE → List ℕ
  | .eps | .ch _ | .cls _ | .starG _ | .starL _ | .plusG _
  | .repUpTo _ _ | .bnd => []
  | .seq a b => groupIds a ++ groupIds b
  | .alt a b => groupIds a ++ groupIds b
  | .opt a => groupIds a
  | .grp i a => i :: groupIds a

/-- `m.groups()`: each group's captured text, `none` for an unmatched
group. -/
def matchGroups (pat : RE) (caps : Caps) : List (Option (List Char)) :=
  (groupIds pat).map (fun i => (caps.find? (fun p => p.1 == i)).map (·.2))

/-! ### The price patterns (`PRICE_PATTERNS`) -/

/-- `Last\s*Rate\s*\((.*?)\)\s*([0-9\.,]+)` — EN, unit before number. -/
def pat0 : RE :=
  .seq (litsOf "Last".data) (.seq (.starG .ws) (.seq (litsOf "Rate".data)
    (.seq (.starG .ws) (.seq (.ch '(') (.seq (.grp 1 (.starL .any))
      (.seq (.ch ')') (.seq (.starG .ws) (.grp 2 (.plusG .digitDotComma)))))))))

/-- `Last\s*Rate[^0-9]*([0-9\.,]+)\s*\((.*?)\)` — EN, unit after number. -/
def pat1 : RE :=
  .seq (litsOf "Last".data) (.seq (.starG .ws) (.seq (litsOf "Rate".data)
    (.seq (.starG .nonDigit) (.seq (.grp 1 (.plusG .digitDotComma))
      (.seq (.starG .ws) (.seq (.ch '(') (.seq (.grp 2 (.starL .any)) (.ch ')'))))))))

/-- `Last\s*Rate.*?([0-9\.,]+)`. -/
def pat2 : RE :=
  .seq (litsOf "Last".data) (.seq (.starG .ws) (.seq (litsOf "Rate".data)
    (.seq (.starL .any) (.grp 1 (.plusG .digitDotComma)))))

/-- `שער\s*אחרון\s*\((.*?)\)\s*([0-9\.,]+)` — HE, unit before number. -/
def pat3 : RE :=
  .seq (litsOf "שער".data) (.seq (.starG .ws) (.seq (litsOf "אחרון".data)
    (.seq (.starG .ws) (.seq (.ch '(') (.seq (.grp 1 (.starL .any))
      (.seq (.ch ')') (.seq (.starG .ws) (.grp 2 (.plusG .digitDotComma)))))))))

/-- `שער\s*אחרון[^0-9]*([0-9\.,]+)\s*\((.*?)\)` — HE, unit after number. -/
def pat4 : RE :=
  .seq (litsOf "שער".data) (.seq (.starG .ws) (.seq (litsOf "אחרון".data)
    (.seq (.starG .nonDigit) (.seq (.grp 1 (.plusG .digitDotComma))
      (.seq (.starG .ws) (.seq (.ch '(') (.seq (.grp 2 (.starL .any)) (.ch ')'))))))))

/-- `שער\s*אחרון[^0-9]*([0-9\.,]+)`. -/
def pat5 : RE :=
  .seq (litsOf "שער".data) (.seq (.starG .ws) (.seq (litsOf "אחרון".data)
    (.seq (.starG .nonDigit) (.grp 1 (.plusG .digitDotComma)))))

/-- `שער[^0-9]{0,12}([0-9\.,]+)` — loose fallback. -/
def pat6 : RE :=
  .seq (litsOf "שער".data) (.seq (.repUpTo .nonDigit 12)
    (.grp 1 (.plusG .digitDotComma)))

/-- The apostrophe character. -/
def aposChar : Char := Char.ofNat 39

/-- `אג(?:'|ורות)?` — the Hebrew minor-unit word and its abbreviations. -/
def agorotHeRE : RE :=
  .seq (litsOf "אג".data) (.opt (.alt (.ch aposChar) (litsOf "ורות".data)))

/-- `([0-9\.,]+)\s*(?:אג(?:'|ורות)?|Agorot|0\.01\s*NIS)` — bare number
with a unit suffix, the last-resort pattern. -/
def pat7 : RE :=
  .seq (.grp 1 (.plusG .digitDotComma)) (.seq (.starG .ws)
    (.alt agorotHeRE (.alt (litsOf "Agorot".data)
      (.seq (litsOf "0.01".data) (.seq (.starG .ws) (litsOf "NIS".data))))))

/-- `PRICE_PATTERNS`, in source order. -/
def PRICE_PATTERNS : List RE := [pat0, pat1, pat2, pat3, pat4, pat5, pat6, pat7]

/-! ### `_is_agorot_unit` and `_extract_price` -/

/-- `_is_agorot_unit` (prices_fetcher.py).  `none` models the Python
`None` argument (falsy, hence `False`). -/
def isAgorotUnit : Option (List Char) → Bool
  | none => false
  | some s =>
    if s.isEmpty then false
    else
      let t := pyStrip s
      let tl := pyLower t
      containsSub "0.01".data tl || containsSub "agorot".data tl ||
      containsSub "אג".data t ||
      containsSub ("אג".data ++ [aposChar]) t || containsSub "אגורות".data t

/-- First group whose text `_clean_number` parses, with its value and its
position among the non-`None` groups. -/
def firstNumeric : List (List Char) → Option (ℚ × ℕ)
  | [] => none
  | g :: rest =>
    match cleanNumber g with
    | some v => some (v, 0)
    | none => (firstNumeric rest).map (fun p => (p.1, p.2 + 1))

/-- The ±250-character window `text[max(0,start-250):min(len(text),end+250)]`
around a match span. -/
def windowAround (text : List Char) (start stop : ℕ) : List Char :=
  (text.take (min text.length (stop + 250))).drop (start - 250)

/-- One iteration body of the `_extract_price` pattern loop: search one
pattern, pick the numeric group (first group that cleans) and the unit
candidate (first remaining group), and upgrade the unit to the sentinel
`"nearby-agorot"` when the ±250 window holds an agorot marker.  `none` when
the pattern does not match or no group normalizes (the `continue` cases). -/
def patCandidate (text : List Char) (pat : RE) : Option (ℚ × Option (List Char)) :=
  match reSearch text true pat with
  | none => none
  | some (start, stop, caps) =>
    let groups := (matchGroups pat caps).filterMap id
    match firstNumeric groups with
    | none => none
    | some (val, i) =>
      let unit0 := (groups.eraseIdx i).head?
      let unit :=
        if isAgorotUnit unit0 then unit0
        else if isAgorotUnit (some (windowAround text start stop)) then
          some "nearby-agorot".data
        else unit0
      some (val, unit)

/-- The `for pat in PRICE_PATTERNS` loop of `_extract_price`, carrying
`(best_val, best_unit)`.  A candidate with an agorot unit scales by `0.01`
and breaks; otherwise the candidate value is remembered (overwriting any
earlier one) and the scan continues. -/
def scanPatterns (text : List Char) :
    List RE → Option ℚ × Option (List Char) → Option ℚ × Option (List Char)
  | [], acc => acc
  | p :: rest, acc =>
    match patCandidate text p with
    | none => scanPatterns text rest acc
    | some (val, unit) =>
      if isAgorotUnit unit then (some (val * (1/100)), some "agorot".data)
      else scanPatterns text rest (some val, none)

/-- `(?:0\.01\s*NIS|Agorot|אג(?:'|ורות)?)` — the whole-page agorot scan. -/
def globalAgorotRE : RE :=
  .alt (.seq (litsOf "0.01".data) (.seq (.starG .ws) (litsOf "NIS".data)))
    (.alt (litsOf "Agorot".data) agorotHeRE)

/-- Whether the global agorot regex matches anywhere in the page (re.I). -/
def globalAgorotHit (text : List Char) : Bool :=
  (reSearch text true globalAgorotRE).isSome

/-- The tail of `_extract_price` after the loop: global page scan when no
unit was detected, the ≥ 10000 magnitude heuristic, and final rounding with
the provenance tag. -/
def finishExtract (text : List Char) :
    Option ℚ → Option (List Char) → Option (ℚ × List Char)
  | none, _ => none
  | some bv, bu =>
    if bu.isNone && globalAgorotHit text then
      some (round6 (bv * (1/100)), "unit:global-agorot".data)
    else if 10000 ≤ bv then some (round6 (bv * (1/100)), "heuristic".data)
    else
      some (round6 bv,
        match bu with
        | some u => "unit:".data ++ u
        | none => "no-unit".data)

/-- `_extract_price` (prices_fetcher.py): the Extraction Orchestrator for
one page text.  (The local `best_how` variable of the source is dead: the
returned provenance string is built afresh in each `return`.) -/
def extractPrice (text : List Char) : Option (ℚ × List Char) :=
  let r := scanPatterns text PRICE_PATTERNS (none, none)
  finishExtract text r.1 r.2

/-! ### Page Fetcher and Source Fallback Controller -/

/-- Outcome of one `requests.get`: a transport failure
(`requests.RequestException`), or a response with its HTTP status code, the
HTML-to-text reduction of the body (`soup.get_text(" ", strip=True)`) and
the raw body (`r.text`).  Transport and HTML reduction are external
collaborators, so both text forms are supplied by the environment. -/
inductive FetchOutcome where
  | fail
  | resp (status : ℕ) (text raw : List Char)

/-- `fetch_price_from_source` (prices_fetcher.py), price component: `None`
on transport failure or non-200 status; otherwise extraction on the reduced
text, falling back to the raw body (`_extract_price(text) or
_extract_price(r.text)`).  The accompanying diagnostic string is dropped:
`get_price_for_code` consumes only the price. -/
def fetchPriceFromSource (outcome : FetchOutcome) : Option ℚ :=
  match outcome with
  | .fail => none
  | .resp status text raw =>
    if status ≠ 200 then none
    else
      match extractPrice text with
      | some (p, _) => some p
      | none => (extractPrice raw).map Prod.fst

/-- `SOURCES` (prices_fetcher.py): the Source Registry, in priority order. -/
def SOURCES : List (List Char × List Char) :=
  [("TASE EN major".data,
    "https://market.tase.co.il/en/market_data/security/\x7bcode\x7d".data),
   ("TASE HE major".data,
    "https://market.tase.co.il/he/market_data/security/\x7bcode8\x7d/major_data".data),
   ("TASE EN graph".data,
    "https://market.tase.co.il/en/market_data/security/\x7bcode\x7d/graph".data),
   ("TheMarker".data,
    "https://finance.themarker.com/etf/\x7bcode\x7d".data),
   ("Funder ETF".data,
    "https://www.funder.co.il/etf/\x7bcode\x7d".data),
   ("Bizportal ETF".data,
    "https://www.bizportal.co.il/tradedfund/quote/generalview/\x7bcode\x7d".data)]

/-- Fuel-driven worker for `replaceAll` (fuel bounds the scan length). -/
def replaceAllGo (pat repl : List Char) : ℕ → List Char → List Char
  | 0, rest => rest
  | _ + 1, [] => []
  | fuel + 1, c :: rest =>
    if !pat.isEmpty && pat.isPrefixOf (c :: rest) then
      repl ++ replaceAllGo pat repl fuel ((c :: rest).drop pat.length)
    else c :: replaceAllGo pat repl fuel rest

/-- Replace every (leftmost, non-overlapping) occurrence: `str.replace`,
as performed by `str.format` on a template without other brace fields. -/
def replaceAll (s pat repl : List Char) : List Char :=
  replaceAllGo pat repl s.length s

/-- Decimal digit string of `code` (`str(int(code))`). -/
def codeStrOf (code : ℕ) : List Char := Nat.toDigits 10 code

/-- `f"{int(code):08d}"`: the 8-digit zero-padded code. -/
def code8Of (code : ℕ) : List Char :=
  let s := Nat.toDigits 10 code
  List.replicate (8 - s.length) '0' ++ s

/-- `tmpl.format(code=code, code8=code8)`. -/
def formatUrl (tmpl codeStr code8Str : List Char) : List Char :=
  replaceAll (replaceAll tmpl "\x7bcode\x7d".data codeStr)
    "\x7bcode8\x7d".data code8Str

/-- The `for name, tmpl in SOURCES` loop of `get_price_for_code`: first
source whose fetch yields a price wins; the environment maps each built URL
to its transport outcome. -/
def tryFetchSources (env : List Char → FetchOutcome)
    (codeStr code8Str : List Char) :
    List (List Char × List Char) → Option ℚ
  | [] => none
  | (_, tmpl) :: rest =>
    match fetchPriceFromSource (env (formatUrl tmpl codeStr code8Str)) with
    | some v => some v
    | none => tryFetchSources env codeStr code8Str rest

/-- `get_price_for_code` (prices_fetcher.py): the Source Fallback
Controller. -/
def getPriceForCode (env : List Char → FetchOutcome) (code : ℕ) : Option ℚ :=
  tryFetchSources env (codeStrOf code) (code8Of code) SOURCES

/-! ### The alternate draft (`prices_updater.py`) -/

/-- `FUNDER_URLS` (prices_updater.py). -/
def FUNDER_URLS : List (List Char) :=
  ["https://www.funder.co.il/etf/\x7bid\x7d".data,
   "https://www.funder.co.il/fund/\x7bid\x7d".data]

/-- `\d{5,9}` as nested greedy repetition (longest first, at least five). -/
def updaterPlainNum : RE :=
  .seq (.cls .digit) (.seq (.cls .digit) (.seq (.cls .digit)
    (.seq (.cls .digit) (.seq (.cls .digit)
      (.opt (.seq (.cls .digit) (.opt (.seq (.cls .digit)
        (.opt (.seq (.cls .digit) (.opt (.cls .digit))))))))))))

/-- `[,\s]\d{3}`. -/
def updaterSepGroup : RE :=
  .seq (.cls .commaWs) (.seq (.cls .digit) (.seq (.cls .digit) (.cls .digit)))

/-- `\d{1,3}(?:[,\s]\d{3}){1,3}`. -/
def updaterGroupedNum : RE :=
  .seq (.seq (.cls .digit) (.opt (.seq (.cls .digit) (.opt (.cls .digit)))))
    (.seq updaterSepGroup (.opt (.seq updaterSepGroup (.opt updaterSepGroup))))

/-- `\b(\d{5,9}|\d{1,3}(?:[,\s]\d{3}){1,3})\b` (prices_updater.py). -/
def updaterNumRE : RE :=
  .seq .bnd (.seq (.grp 1 (.alt updaterPlainNum updaterGroupedNum)) .bnd)

/-- `_first_price_after` (prices_updater.py): first large numeric in the
800-character window after the anchor, commas and spaces removed.  A
`float` failure on a token with an exotic matched separator is conflated
with "no match": in the caller both continue to the next anchor/URL
through the blanket `except`. -/
def firstPriceAfter (anchor full : List Char) : Option ℚ :=
  match indexOfSub anchor full with
  | none => none
  | some i =>
    let tail := (full.drop i).take 800
    match reSearch tail false updaterNumRE with
    | none => none
    | some (_, _, caps) =>
      match (caps.find? (fun p => p.1 == 1)).map (·.2) with
      | none => none
      | some raw => pyFloat (raw.filter (fun c => !(c = ',') && !(c = ' ')))

/-- The anchor priority list of `_parse_funder_price`. -/
def funderAnchors : List (List Char) :=
  ["מחיר".data, "שער אחרון".data, "שער".data]

/-- The anchor loop of `_parse_funder_price`: `if agorot:` means a found,
non-zero value (Python truthiness of `None` and `0.0`); exhaustion models
the `ValueError` raise, caught by the caller. -/
def parseFunderLoop (text : List Char) : List (List Char) → Option ℚ
  | [] => none
  | anc :: rest =>
    match firstPriceAfter anc text with
    | some v => if v = 0 then parseFunderLoop text rest else some (v / 100)
    | none => parseFunderLoop text rest

/-- `_parse_funder_price` (prices_updater.py), on the reduced page text
(the HTML-to-text reduction it performs internally is supplied by the
environment, as for the other fetcher). -/
def parseFunderPrice (text : List Char) : Option ℚ :=
  parseFunderLoop text funderAnchors

/-- The URL loop of `fetch_price_by_number`: per-URL exceptions (transport,
parse) are caught and the loop continues; a non-200 status just falls
through.  Exhaustion raises `RuntimeError` — modelled as `Except.error`. -/
def tryFunderUrls (env : List Char → FetchOutcome) (idStr : List Char) :
    List (List Char) → Except Unit ℚ
  | [] => .error ()
  | tmpl :: rest =>
    match env (replaceAll tmpl "\x7bid\x7d".data idStr) with
    | .fail => tryFunderUrls env idStr rest
    | .resp status text _ =>
      if status = 200 then
        match parseFunderPrice text with
        | some v => .ok v
        | none => tryFunderUrls env idStr rest
      else tryFunderUrls env idStr rest

/-- `fetch_price_by_number` (prices_updater.py): the alternate draft of the
Source Fallback Controller; raises on exhaustion instead of returning a
null price. -/
def fetchPriceByNumber (env : List Char → FetchOutcome) (secId : ℕ) :
    Except Unit ℚ :=
  tryFunderUrls env (Nat.toDigits 10 secId) FUNDER_URLS

/-! ### Concrete pages and environments used by the claim theorems -/

/-- A page where the EN label pattern finds `45.30` but the loose Hebrew
fallback pattern also finds `77`, with no agorot marker anywhere. -/
def pageC3 : List Char := "Last Rate 45.30 abc שער 77".data

/-- A page whose only `0.01` occurrence lies more than 250 characters away
from the price match, with no `NIS`/`Agorot`/`אג` marker at all. -/
def farMarkerPage : List Char :=
  "Last Rate 45.30".data ++ List.replicate 250 'x' ++ " 0.01".data

/-- A page carrying an explicit adjacent agorot unit for `45.30`. -/
def pageAgorot : List Char := "Last Rate 45.30 (Agorot)".data

/-- Environment for the fallback-order scenario: the second source's URL
(for code 1183441) answers 200 with a plain price page; every other URL
answers HTTP 404. -/
def demoEnv : List Char → FetchOutcome := fun url =>
  if url = formatUrl
      "https://market.tase.co.il/he/market_data/security/\x7bcode8\x7d/major_data".data
      (codeStrOf 1183441) (code8Of 1183441) then
    FetchOutcome.resp 200 "Last Rate 45.30".data "Last Rate 45.30".data
  else FetchOutcome.resp 404 [] []

/-- Whether a pattern yields a candidate carrying agorot evidence
(explicit fragment or ±250 window) on this page. -/
def patHasAgorotCand (text : List Char) (p : RE) : Bool :=
  match patCandidate text p with
  | some (_, u) => isAgorotUnit u
  | none => false

/-- Characterization (from the observed loop behaviour, for the amended
claim C3): the surviving no-evidence candidate is the **last** pattern's. -/
def lastCandFrom (text : List Char) : Option ℚ → List RE → Option ℚ
  | acc, [] => acc
  | acc, p :: rest =>
    match patCandidate text p with
    | some (v, _) => lastCandFrom text (some v) rest
    | none => lastCandFrom text acc rest

set_option maxRecDepth 200000
set_option maxHeartbeats 2000000

/-! ### Loop lemmas for the fallback controller and the pattern scan -/

theorem tryFetch_first_some (env : List Char → FetchOutcome)
    (cs c8 : List Char) (pre post : List (List Char × List Char))
    (nm tmpl : List Char) (v : ℚ)
    (hpre : ∀ p ∈ pre, fetchPriceFromSource (env (formatUrl p.2 cs c8)) = none)
    (hhit : fetchPriceFromSource (env (formatUrl tmpl cs c8)) = some v) :
    tryFetchSources env cs c8 (pre ++ (nm, tmpl) :: post) = some v := by
  induction pre with
  | nil => simp only [List.nil_append, tryFetchSources, hhit]
  | cons hd tl ih =>
    obtain ⟨n0, t0⟩ := hd
    have h0 : fetchPriceFromSource (env (formatUrl t0 cs c8)) = none :=
      hpre (n0, t0) (by simp)
    simpa only [List.cons_append, tryFetchSources, h0] using
      ih (fun p hp => hpre p (by simp [hp]))

theorem tryFetch_all_none (env : List Char → FetchOutcome)
    (cs c8 : List Char) (l : List (List Char × List Char))
    (h : ∀ p ∈ l, fetchPriceFromSource (env (formatUrl p.2 cs c8)) = none) :
    tryFetchSources env cs c8 l = none := by
  induction l with
  | nil => rfl
  | cons hd tl ih =>
    obtain ⟨n0, t0⟩ := hd
    have h0 : fetchPriceFromSource (env (formatUrl t0 cs c8)) = none :=
      h (n0, t0) (by simp)
    simpa only [tryFetchSources, h0] using ih (fun p hp => h p (by simp [hp]))

theorem scan_no_agorot (text : List Char) (pats : List RE) :
    ∀ acc : Option ℚ, (∀ p ∈ pats, patHasAgorotCand text p = false) →
    scanPatterns text pats (acc, none) = (lastCandFrom text acc pats, none) := by
  induction pats with
  | nil => intro acc _; rfl
  | cons p rest ih =>
    intro acc h
    have hp : patHasAgorotCand text p = false := h p (by simp)
    have hrest : ∀ q ∈ rest, patHasAgorotCand text q = false :=
      fun q hq => h q (by simp [hq])
    cases hc : patCandidate text p with
    | none =>
      simp only [scanPatterns, lastCandFrom, hc]
      exact ih acc hrest
    | some vu =>
      obtain ⟨v, u⟩ := vu
      have hu : isAgorotUnit u = false := by
        simpa only [patHasAgorotCand, hc] using hp
      simp only [scanPatterns, lastCandFrom, hc, hu, Bool.false_eq_true,
        if_false]
      exact ih (some v) hrest

theorem scan_agorot_break (text : List Char) (pre : List RE) :
    ∀ (p : RE) (post : List RE) (v : ℚ) (u : Option (List Char))
      (acc : Option ℚ),
    (∀ q ∈ pre, patHasAgorotCand text q = false) →
    patCandidate text p = some (v, u) → isAgorotUnit u = true →
    scanPatterns text (pre ++ p :: post) (acc, none) =
      (some (v * (1/100)), some "agorot".data) := by
  induction pre with
  | nil =>
    intro p post v u acc _ hc hu
    simp only [List.nil_append, scanPatterns, hc, hu, if_true]
  | cons q rest ih =>
    intro p post v u acc h hc hu
    have hq : patHasAgorotCand text q = false := h q (by simp)
    have hrest : ∀ r ∈ rest, patHasAgorotCand text r = false :=
      fun r hr => h r (by simp [hr])
    cases hcq : patCandidate text q with
    | none =>
      simp only [List.cons_append, scanPatterns, hcq]
      exact ih p post v u acc hrest hc hu
    | some vu =>
      obtain ⟨w, uu⟩ := vu
      have huu : isAgorotUnit uu = false := by
        simpa only [patHasAgorotCand, hcq] using hq
      simp only [List.cons_append, scanPatterns, hcq, huu,
        Bool.false_eq_true, if_false]
      exact ih p post v u (some w) hrest hc hu

/-! ### Claim theorems -/

/-- C1 (code bug): on a page whose price-bearing fragment is
`"Last Rate (0.01 NIS) 436.20"`, `_extract_price` does not return 4.3620.
The group disambiguation picks the first group that normalizes, which is
the unit fragment `"0.01 NIS"` (cleaning to 0.01); the window scan then
sees `0.01` and rescales, so the returned price is 0.0001, not
`round(436.20 * 0.01, 6) = 4.3620`. -/
theorem extractPrice_picks_unit_fragment_as_number :
    extractPrice "Last Rate (0.01 NIS) 436.20".data =
      some (1/10000, "unit:agorot".data) ∧
    (1/10000 : ℚ) ≠ round6 ((4362/10) * (1/100)) := by
  constructor
  · with_unfolding_all rfl
  · have h : round6 ((4362/10) * (1/100)) = 2181/500 := by
      with_unfolding_all rfl
    rw [h]; norm_num

/-- C2: the Source Fallback Controller returns the first source's non-null
price; all sources before the hit returned nothing, and the result is the
same under any environment agreeing on the consulted prefix — later
sources are never fetched. -/
theorem getPriceForCode_first_hit_wins
    (env env' : List Char → FetchOutcome) (code : ℕ)
    (pre post : List (List Char × List Char)) (nm tmpl : List Char) (v : ℚ)
    (hdec : SOURCES = pre ++ (nm, tmpl) :: post)
    (hpre : ∀ p ∈ pre,
      fetchPriceFromSource (env (formatUrl p.2 (codeStrOf code) (code8Of code))) = none)
    (hhit : fetchPriceFromSource
      (env (formatUrl tmpl (codeStrOf code) (code8Of code))) = some v)
    (hagree : ∀ p ∈ pre,
      env' (formatUrl p.2 (codeStrOf code) (code8Of code)) =
        env (formatUrl p.2 (codeStrOf code) (code8Of code)))
    (hagree2 : env' (formatUrl tmpl (codeStrOf code) (code8Of code)) =
      env (formatUrl tmpl (codeStrOf code) (code8Of code))) :
    getPriceForCode env code = some v ∧ getPriceForCode env' code = some v := by
  constructor
  · show tryFetchSources env _ _ SOURCES = some v
    rw [hdec]
    exact tryFetch_first_some env _ _ pre post nm tmpl v hpre hhit
  · show tryFetchSources env' _ _ SOURCES = some v
    rw [hdec]
    refine tryFetch_first_some env' _ _ pre post nm tmpl v ?_ ?_
    · intro p hp; rw [hagree p hp]; exact hpre p hp
    · rw [hagree2]; exact hhit

/-- Witness for C2: source 1 answers 404, source 2's page reads
`"Last Rate 45.30"`; the controller returns 45.3. -/
theorem getPriceForCode_first_hit_wins_witness :
    getPriceForCode demoEnv 1183441 = some (453/10) := by
  refine (getPriceForCode_first_hit_wins demoEnv demoEnv 1183441
    [("TASE EN major".data,
      "https://market.tase.co.il/en/market_data/security/\x7bcode\x7d".data)]
    [("TASE EN graph".data,
      "https://market.tase.co.il/en/market_data/security/\x7bcode\x7d/graph".data),
     ("TheMarker".data, "https://finance.themarker.com/etf/\x7bcode\x7d".data),
     ("Funder ETF".data, "https://www.funder.co.il/etf/\x7bcode\x7d".data),
     ("Bizportal ETF".data,
      "https://www.bizportal.co.il/tradedfund/quote/generalview/\x7bcode\x7d".data)]
    "TASE HE major".data
    "https://market.tase.co.il/he/market_data/security/\x7bcode8\x7d/major_data".data
    (453/10) rfl ?_ (by with_unfolding_all rfl) (fun p _ => rfl) rfl).1
  intro p hp
  have hp2 : p = ("TASE EN major".data,
      "https://market.tase.co.il/en/market_data/security/\x7bcode\x7d".data) := by
    simpa using hp
  subst hp2
  with_unfolding_all rfl

/-- C3 counterexample: on `pageC3` the first pattern with a numeric
candidate is `pat2` (candidate 45.30), yet extraction returns the loose
fallback pattern's candidate 77 — a later pattern's candidate is returned
even though an earlier pattern matched and normalized. -/
theorem extractPrice_last_match_overrides :
    extractPrice pageC3 = some (77, "no-unit".data) ∧
    patCandidate pageC3 pat0 = none ∧ patCandidate pageC3 pat1 = none ∧
    patCandidate pageC3 pat2 = some (453/10, none) ∧ (77 : ℚ) ≠ 453/10 := by
  refine ⟨?_, ?_, ?_, ?_, by norm_num⟩
  all_goals with_unfolding_all rfl

/-- C3 amended: the scan returns the first pattern whose candidate carries
agorot evidence (explicit fragment or ±250 window), scaled by 0.01; when no
matching pattern's candidate carries such evidence, the surviving candidate
is the **last** matching pattern's, not the first's. -/
theorem scanPatterns_priority_amended :
    (∀ (text : List Char) (pre : List RE) (p : RE) (post : List RE) (v : ℚ)
       (u : Option (List Char)),
      PRICE_PATTERNS = pre ++ p :: post →
      (∀ q ∈ pre, patHasAgorotCand text q = false) →
      patCandidate text p = some (v, u) → isAgorotUnit u = true →
      scanPatterns text PRICE_PATTERNS (none, none) =
        (some (v * (1/100)), some "agorot".data)) ∧
    (∀ text : List Char,
      (∀ q ∈ PRICE_PATTERNS, patHasAgorotCand text q = false) →
      scanPatterns text PRICE_PATTERNS (none, none) =
        (lastCandFrom text none PRICE_PATTERNS, none)) := by
  constructor
  · intro text pre p post v u hdec hpre hc hu
    rw [hdec]
    exact scan_agorot_break text pre p post v u none hpre hc hu
  · intro text h
    exact scan_no_agorot text PRICE_PATTERNS none h

/-- Witness for the amended C3 on `pageC3`: no pattern has agorot
evidence, and the surviving candidate is the last pattern's 77. -/
theorem scanPatterns_priority_amended_witness :
    scanPatterns pageC3 PRICE_PATTERNS (none, none) =
      (lastCandFrom pageC3 none PRICE_PATTERNS, none) ∧
    lastCandFrom pageC3 none PRICE_PATTERNS = some 77 := by
  constructor
  · exact scanPatterns_priority_amended.2 pageC3
      (of_decide_eq_true (by with_unfolding_all rfl))
  · with_unfolding_all rfl

/-- C4 counterexample: raw value 2000000 with an explicit adjacent agorot
unit is scaled once by the unit hit (→ 20000) and then **again** by the
magnitude heuristic, returning 200 with tag `heuristic` instead of
`round(2000000 * 0.01, 6) = 20000`. -/
theorem extractPrice_heuristic_after_explicit :
    extractPrice "Last Rate 2000000 (Agorot)".data =
      some (200, "heuristic".data) ∧
    (200 : ℚ) ≠ round6 ((2000000 : ℚ) * (1/100)) := by
  constructor
  · with_unfolding_all rfl
  · have h : round6 ((2000000 : ℚ) * (1/100)) = 20000 := by
      with_unfolding_all rfl
    rw [h]; norm_num

/-- C4 amended: after an explicit/nearby agorot hit the 0.01 scale is
applied once and the result is `round(raw * 0.01, 6)` with tag
`unit:agorot` — but only as long as the scaled value stays below 10000;
when `raw * 0.01 ≥ 10000` the magnitude heuristic applies a second 0.01
factor and tags the result `heuristic`. -/
theorem explicitAgorot_scale_amended :
    (∀ (text : List Char) (raw : ℚ),
      finishExtract text (some (raw * (1/100))) (some "agorot".data) =
        if 10000 ≤ raw * (1/100) then
          some (round6 (raw * (1/100) * (1/100)), "heuristic".data)
        else some (round6 (raw * (1/100)), "unit:agorot".data)) ∧
    (∀ (text : List Char) (raw : ℚ),
      scanPatterns text PRICE_PATTERNS (none, none) =
        (some (raw * (1/100)), some "agorot".data) →
      extractPrice text =
        if 10000 ≤ raw * (1/100) then
          some (round6 (raw * (1/100) * (1/100)), "heuristic".data)
        else some (round6 (raw * (1/100)), "unit:agorot".data)) := by
  have key : ∀ (text : List Char) (raw : ℚ),
      finishExtract text (some (raw * (1/100))) (some "agorot".data) =
        if 10000 ≤ raw * (1/100) then
          some (round6 (raw * (1/100) * (1/100)), "heuristic".data)
        else some (round6 (raw * (1/100)), "unit:agorot".data) := by
    intro text raw
    have hu : ("unit:".data ++ "agorot".data : List Char) =
        "unit:agorot".data := by with_unfolding_all rfl
    simp only [finishExtract, Option.isNone_some, Bool.false_and,
      Bool.false_eq_true, if_false, hu]
  refine ⟨key, fun text raw h => ?_⟩
  unfold extractPrice
  rw [h]
  exact key text raw

/-- Witness for the amended C4: raw 45.30 with explicit agorot on
`pageAgorot` gives `round(45.30 * 0.01, 6) = 0.453` tagged `unit:agorot`. -/
theorem explicitAgorot_scale_amended_witness :
    scanPatterns pageAgorot PRICE_PATTERNS (none, none) =
      (some ((453/10) * (1/100)), some "agorot".data) ∧
    extractPrice pageAgorot = some (453/1000, "unit:agorot".data) := by
  have h1 : scanPatterns pageAgorot PRICE_PATTERNS (none, none) =
      (some ((453/10) * (1/100)), some "agorot".data) := by
    with_unfolding_all rfl
  refine ⟨h1, ?_⟩
  rw [explicitAgorot_scale_amended.2 pageAgorot (453/10) h1,
    if_neg (by norm_num)]
  have h2 : round6 ((453/10 : ℚ) * (1/100)) = 453/1000 := by
    with_unfolding_all rfl
  rw [h2]

/-- C5: with no agorot evidence from the pattern loop and no global page
hit, a raw value ≥ 10000 is rescaled by the magnitude heuristic and a raw
value < 10000 is returned unscaled with no evidence. -/
theorem extractPrice_no_evidence_cases (text : List Char) (raw : ℚ)
    (hscan : scanPatterns text PRICE_PATTERNS (none, none) = (some raw, none))
    (hglobal : globalAgorotHit text = false) :
    extractPrice text =
      if 10000 ≤ raw then some (round6 (raw * (1/100)), "heuristic".data)
      else some (round6 raw, "no-unit".data) := by
  unfold extractPrice
  rw [hscan]
  simp only [finishExtract, Option.isNone_none, hglobal, Bool.and_false,
    Bool.false_eq_true, if_false]

/-- Witness for C5: `436200` with no marker anywhere gives 4362.0 via the
heuristic. -/
theorem extractPrice_no_evidence_cases_witness :
    scanPatterns "Last Rate 436200".data PRICE_PATTERNS (none, none) =
      (some 436200, none) ∧
    globalAgorotHit "Last Rate 436200".data = false ∧
    extractPrice "Last Rate 436200".data = some (4362, "heuristic".data) := by
  have h1 : scanPatterns "Last Rate 436200".data PRICE_PATTERNS (none, none) =
      (some 436200, none) := by with_unfolding_all rfl
  have h2 : globalAgorotHit "Last Rate 436200".data = false := by
    with_unfolding_all rfl
  refine ⟨h1, h2, ?_⟩
  rw [extractPrice_no_evidence_cases "Last Rate 436200".data 436200 h1 h2,
    if_pos (by norm_num)]
  have h3 : round6 ((436200 : ℚ) * (1/100)) = 4362 := by
    with_unfolding_all rfl
  rw [h3]

/-- C6 counterexample: the alternate-draft controller
`fetch_price_by_number` raises `RuntimeError` (modelled `Except.error`)
when every source fails, instead of returning a null price. -/
theorem fetchPriceByNumber_raises_on_exhaustion :
    fetchPriceByNumber (fun _ => FetchOutcome.fail) 1183441 =
      Except.error () := by
  with_unfolding_all rfl

/-- C6 amended: `get_price_for_code` does return a null price, with no
exception, when every source fails or yields no price. -/
theorem getPriceForCode_exhaustion_none (env : List Char → FetchOutcome)
    (code : ℕ)
    (h : ∀ p ∈ SOURCES,
      fetchPriceFromSource
        (env (formatUrl p.2 (codeStrOf code) (code8Of code))) = none) :
    getPriceForCode env code = none := by
  show tryFetchSources env _ _ SOURCES = none
  exact tryFetch_all_none env _ _ SOURCES h

/-- Witness for the amended C6: all transports fail, the controller
returns `none`. -/
theorem getPriceForCode_exhaustion_none_witness :
    getPriceForCode (fun _ => FetchOutcome.fail) 1183441 = none :=
  getPriceForCode_exhaustion_none (fun _ => FetchOutcome.fail) 1183441
    (fun _ _ => rfl)

/-! ### Substring, strip and lowercase transfer lemmas -/

theorem containsSub_iff (pat s : List Char) :
    containsSub pat s = true ↔ pat <:+: s := by
  induction s with
  | nil =>
    simp only [containsSub, List.isPrefixOf_iff_prefix, List.prefix_nil,
      List.infix_nil]
  | cons c rest ih =>
    simp only [containsSub, Bool.or_eq_true, List.isPrefixOf_iff_prefix, ih,
      List.infix_cons_iff]

theorem lowerChar_of_ws (c : Char) (h : c.isWhitespace = true) :
    lowerChar c = c := by
  have h2 : ((c = ' ' ∨ c = '\t') ∨ c = '\r') ∨ c = '\n' := by
    simpa [Char.isWhitespace] using h
  rcases h2 with ((rfl | rfl) | rfl) | rfl <;> decide

theorem map_lower_allWS : ∀ a : List Char,
    (∀ c ∈ a, c.isWhitespace = true) → a.map lowerChar = a := by
  intro a
  induction a with
  | nil => intro _; rfl
  | cons x xs ih =>
    intro ha
    simp only [List.map_cons]
    rw [lowerChar_of_ws x (ha x (by simp)),
      ih (fun c hc => ha c (by simp [hc]))]

theorem infix_allWS_left (pat t : List Char) (hne : pat ≠ [])
    (hpat : ∀ c ∈ pat, c.isWhitespace = false) :
    ∀ a : List Char, (∀ c ∈ a, c.isWhitespace = true) →
      ((pat <:+: a ++ t) ↔ pat <:+: t) := by
  intro a
  induction a with
  | nil => intro _; simp
  | cons x xs ih =>
    intro ha
    have hx : x.isWhitespace = true := ha x (by simp)
    have hxs : ∀ c ∈ xs, c.isWhitespace = true :=
      fun c hc => ha c (by simp [hc])
    constructor
    · intro h
      rcases List.infix_cons_iff.mp h with hp | h2
      · exfalso
        obtain ⟨d, ds, rfl⟩ := List.exists_cons_of_ne_nil hne
        have hd : d = x := (List.cons_prefix_cons.mp hp).1
        have hdw := hpat d (by simp)
        rw [hd, hx] at hdw
        simp at hdw
      · exact (ih hxs).mp h2
    · intro h
      have h2 : pat <:+: xs ++ t := (ih hxs).mpr h
      exact h2.trans ((List.suffix_cons x (xs ++ t)).isInfix)

theorem infix_allWS_right (pat t : List Char) (hne : pat ≠ [])
    (hpat : ∀ c ∈ pat, c.isWhitespace = false) (b : List Char)
    (hb : ∀ c ∈ b, c.isWhitespace = true) :
    (pat <:+: t ++ b) ↔ pat <:+: t := by
  rw [← List.reverse_infix, List.reverse_append]
  rw [infix_allWS_left pat.reverse t.reverse (by simpa using hne)
    (fun c hc => hpat c (List.mem_reverse.mp hc)) b.reverse
    (fun c hc => hb c (List.mem_reverse.mp hc))]
  exact List.reverse_infix

theorem pyStrip_decomp (s : List Char) :
    ∃ a b, s = a ++ pyStrip s ++ b ∧ (∀ c ∈ a, c.isWhitespace = true) ∧
      (∀ c ∈ b, c.isWhitespace = true) := by
  refine ⟨s.takeWhile Char.isWhitespace,
    ((s.dropWhile Char.isWhitespace).reverse.takeWhile Char.isWhitespace).reverse,
    ?_, fun c hc => List.mem_takeWhile_imp hc,
    fun c hc => List.mem_takeWhile_imp (List.mem_reverse.mp hc)⟩
  conv_lhs => rw [← List.takeWhile_append_dropWhile Char.isWhitespace s]
  rw [List.append_assoc]
  congr 1
  conv_lhs =>
    rw [← List.reverse_reverse (s.dropWhile Char.isWhitespace),
      ← List.takeWhile_append_dropWhile Char.isWhitespace
        (s.dropWhile Char.isWhitespace).reverse,
      List.reverse_append]
  rfl

theorem containsSub_strip (pat s : List Char) (hne : pat ≠ [])
    (hpat : ∀ c ∈ pat, c.isWhitespace = false) :
    (containsSub pat (pyStrip s) = true) ↔ containsSub pat s = true := by
  rw [containsSub_iff, containsSub_iff]
  obtain ⟨a, b, hs, ha, hb⟩ := pyStrip_decomp s
  conv_rhs => rw [hs]
  rw [infix_allWS_right pat (a ++ pyStrip s) hne hpat b hb,
    infix_allWS_left pat (pyStrip s) hne hpat a ha]

theorem containsSub_lower_strip (pat s : List Char) (hne : pat ≠ [])
    (hpat : ∀ c ∈ pat, c.isWhitespace = false) :
    (containsSub pat (pyLower (pyStrip s)) = true) ↔
      containsSub pat (pyLower s) = true := by
  rw [containsSub_iff, containsSub_iff]
  obtain ⟨a, b, hs, ha, hb⟩ := pyStrip_decomp s
  have hlow : pyLower s = a ++ pyLower (pyStrip s) ++ b := by
    conv_lhs => rw [hs]
    unfold pyLower
    rw [List.map_append, List.map_append, map_lower_allWS a ha,
      map_lower_allWS b hb]
  rw [hlow,
    infix_allWS_right pat (a ++ pyLower (pyStrip s)) hne hpat b hb,
    infix_allWS_left pat (pyLower (pyStrip s)) hne hpat a ha]

theorem mem_pyStrip_iff (c : Char) (s : List Char)
    (hc : c.isWhitespace = false) : c ∈ pyStrip s ↔ c ∈ s := by
  obtain ⟨a, b, hs, ha, hb⟩ := pyStrip_decomp s
  constructor
  · intro h
    rw [hs]
    simp [h]
  · intro h
    rw [hs] at h
    rcases List.mem_append.mp h with h1 | h2
    · rcases List.mem_append.mp h1 with h3 | h4
      · rw [ha c h3] at hc; exact absurd hc (by simp)
      · exact h4
    · rw [hb c h2] at hc; exact absurd hc (by simp)

/-- C7: the comma-then-dot rule.  A token holding both `.` and `,` has its
commas removed with `.` as decimal point; a token holding `,` but no `.`
has the comma become the decimal point; `"1,234.56"` and `"1234,56"` both
normalize to 1234.56. -/
theorem cleanNumber_separator_rules :
    (∀ s : List Char, '.' ∈ s → ',' ∈ s →
      cleanNumber s = pyFloat ((cleanFilter s).filter (fun c => c ≠ ','))) ∧
    (∀ s : List Char, ',' ∈ s → '.' ∉ s →
      cleanNumber s = pyFloat ((cleanFilter s).map
        (fun c => if c = ',' then '.' else c))) ∧
    cleanNumber "1,234.56".data = some (30864/25) ∧
    cleanNumber "1234,56".data = some (30864/25) := by
  have memfilter : ∀ (c : Char) (s : List Char), c.isWhitespace = false →
      keepNumChar c = true → ((cleanFilter s).contains c = true ↔ c ∈ s) := by
    intro c s hws hk
    rw [List.elem_iff]
    unfold cleanFilter
    rw [List.mem_filter]
    simp only [hk, and_true]
    exact mem_pyStrip_iff c s hws
  refine ⟨?_, ?_, ?_, ?_⟩
  · intro s hdot hcomma
    have hne : s.isEmpty = false := by
      cases s
      · simp at hdot
      · rfl
    have h1 : (cleanFilter s).contains ',' = true :=
      (memfilter ',' s (by decide) (by decide)).mpr hcomma
    have h2 : (cleanFilter s).contains '.' = true :=
      (memfilter '.' s (by decide) (by decide)).mpr hdot
    have m1 : ',' ∈ cleanFilter s := List.elem_iff.mp h1
    have m2 : '.' ∈ cleanFilter s := List.elem_iff.mp h2
    simp [cleanNumber, hne, commaDotResolve, m1, m2]
  · intro s hcomma hdotnot
    have hne : s.isEmpty = false := by
      cases s
      · simp at hcomma
      · rfl
    have h1 : (cleanFilter s).contains ',' = true :=
      (memfilter ',' s (by decide) (by decide)).mpr hcomma
    have h2 : (cleanFilter s).contains '.' = false := by
      cases h : (cleanFilter s).contains '.' with
      | false => rfl
      | true =>
        exact absurd ((memfilter '.' s (by decide) (by decide)).mp h) hdotnot
    have m1 : ',' ∈ cleanFilter s := List.elem_iff.mp h1
    have m2 : '.' ∉ cleanFilter s := fun hm =>
      absurd ((memfilter '.' s (by decide) (by decide)).mp
        (List.elem_iff.mpr hm)) hdotnot
    simp [cleanNumber, hne, commaDotResolve, m1, m2]
  · with_unfolding_all rfl
  · with_unfolding_all rfl

/-- Witness for C7, at the two reference tokens. -/
theorem cleanNumber_separator_rules_witness :
    cleanNumber "1,234.56".data =
      pyFloat ((cleanFilter "1,234.56".data).filter (fun c => c ≠ ',')) ∧
    cleanNumber "1234,56".data =
      pyFloat ((cleanFilter "1234,56".data).map
        (fun c => if c = ',' then '.' else c)) :=
  ⟨cleanNumber_separator_rules.1 "1,234.56".data (by decide) (by decide),
   cleanNumber_separator_rules.2.1 "1234,56".data (by decide) (by decide)⟩

/-- C8: the Numeric Normalizer is a total function into `Option`: every
input yields either a value or the declared `none` failure — `"abc"` gives
`none` — and no exception escapes (`float` failures are caught by the
bare `except`). -/
theorem cleanNumber_never_raises :
    cleanNumber "abc".data = none ∧
    ∀ s : List Char, (∃ v : ℚ, cleanNumber s = some v) ∨ cleanNumber s = none := by
  refine ⟨by with_unfolding_all rfl, fun s => ?_⟩
  cases h : cleanNumber s with
  | some v => exact Or.inl ⟨v, rfl⟩
  | none => exact Or.inr rfl

/-- C9 counterexample: `farMarkerPage` contains the digits `0.01`, but more
than 250 characters from the match and not followed by `NIS`, so no scale
is applied: the claim's "any occurrence of 0.01 anywhere in the page
triggers the 0.01 scale" is false (the global scan needs `0.01\s*NIS`). -/
theorem extractPrice_far_marker_not_scaled :
    extractPrice farMarkerPage = some (453/10, "no-unit".data) ∧
    containsSub "0.01".data farMarkerPage = true ∧
    (453/10 : ℚ) ≠ round6 ((453/10) * (1/100)) := by
  refine ⟨by with_unfolding_all rfl, by with_unfolding_all rfl, ?_⟩
  have h : round6 ((453/10 : ℚ) * (1/100)) = 453/1000 := by
    with_unfolding_all rfl
  rw [h]
  norm_num

/-- C9 amended: `_is_agorot_unit` is exactly the pure substring check —
non-empty and containing `0.01` (case-insensitively), `agorot`
(case-insensitively) or `אג` — and this drives the unit fragment and the
±250 window; the whole-page scan, however, uses the regex
`0\.01\s*NIS|Agorot|אג(?:'|ורות)?`, so a bare `0.01` elsewhere in the page
does **not** trigger rescaling (`farMarkerPage`). -/
theorem isAgorotUnit_substring_iff :
    (∀ s : List Char, isAgorotUnit (some s) = true ↔
      (s ≠ [] ∧ (containsSub "0.01".data (pyLower s) = true ∨
        containsSub "agorot".data (pyLower s) = true ∨
        containsSub "אג".data s = true))) ∧
    globalAgorotHit farMarkerPage = false ∧
    containsSub "0.01".data farMarkerPage = true := by
  refine ⟨?_, by with_unfolding_all rfl, by with_unfolding_all rfl⟩
  intro s
  by_cases hs : s = []
  · subst hs
    simp [isAgorotUnit]
  · have hEmpty : s.isEmpty = false := by
      cases s
      · exact absurd rfl hs
      · rfl
    have tA := containsSub_lower_strip "0.01".data s (by decide) (by decide)
    have tB := containsSub_lower_strip "agorot".data s (by decide) (by decide)
    have tC := containsSub_strip "אג".data s (by decide) (by decide)
    have hDC : containsSub ("אג".data ++ [aposChar]) (pyStrip s) = true →
        containsSub "אג".data (pyStrip s) = true := by
      intro h
      rw [containsSub_iff] at h ⊢
      exact List.IsInfix.trans
        ((List.prefix_append "אג".data [aposChar]).isInfix) h
    have hEC : containsSub "אגורות".data (pyStrip s) = true →
        containsSub "אג".data (pyStrip s) = true := by
      intro h
      rw [containsSub_iff] at h ⊢
      exact List.IsInfix.trans
        ((by decide : "אג".data <+: "אגורות".data).isInfix) h
    constructor
    · intro h
      refine ⟨hs, ?_⟩
      have h5 : (((containsSub "0.01".data (pyLower (pyStrip s)) = true ∨
          containsSub "agorot".data (pyLower (pyStrip s)) = true) ∨
          containsSub "אג".data (pyStrip s) = true) ∨
          containsSub ("אג".data ++ [aposChar]) (pyStrip s) = true) ∨
          containsSub "אגורות".data (pyStrip s) = true := by
        simpa [isAgorotUnit, hEmpty, Bool.or_eq_true] using h
      rcases h5 with (((hA | hB) | hC) | hD) | hE
      · exact Or.inl (tA.mp hA)
      · exact Or.inr (Or.inl (tB.mp hB))
      · exact Or.inr (Or.inr (tC.mp hC))
      · exact Or.inr (Or.inr (tC.mp (hDC hD)))
      · exact Or.inr (Or.inr (tC.mp (hEC hE)))
    · rintro ⟨-, h3⟩
      have h5 : (((containsSub "0.01".data (pyLower (pyStrip s)) = true ∨
          containsSub "agorot".data (pyLower (pyStrip s)) = true) ∨
          containsSub "אג".data (pyStrip s) = true) ∨
          containsSub ("אג".data ++ [aposChar]) (pyStrip s) = true) ∨
          containsSub "אגורות".data (pyStrip s) = true := by
        rcases h3 with hA | hB | hC
        · exact Or.inl (Or.inl (Or.inl (Or.inl (tA.mpr hA))))
        · exact Or.inl (Or.inl (Or.inl (Or.inr (tB.mpr hB))))
        · exact Or.inl (Or.inl (Or.inr (tC.mpr hC)))
      simpa [isAgorotUnit, hEmpty, Bool.or_eq_true] using h5

/-- C10 counterexample: on `"Last Rate (-5 Agorot) 3"` the unit fragment
`"-5 Agorot"` is selected as the numeric token (it cleans to -5), the
window finds the agorot marker, and extraction returns the negative price
-0.05. -/
theorem extractPrice_negative_price :
    extractPrice "Last Rate (-5 Agorot) 3".data =
      some (-1/20, "unit:agorot".data) ∧ (-1/20 : ℚ) < 0 := by
  constructor
  · with_unfolding_all rfl
  · norm_num

theorem pyFloatUnsigned_nonneg (t : List Char) (v : ℚ)
    (h : pyFloatUnsigned t = some v) : 0 ≤ v := by
  simp only [pyFloatUnsigned] at h
  repeat' split at h
  all_goals (try exact Option.noConfusion h)
  all_goals (injection h with h3; rw [← h3]; positivity)

/-- C10 amended: a token over the numeric capture class `[0-9\.,]`
normalizes to a non-negative value, and both rounding and the 0.01 scaling
preserve non-negativity — but extraction itself can go negative because
the numeric token may be drawn from a unit-fragment group
(`extractPrice_negative_price`). -/
theorem cleanNumber_numeric_groups_nonneg :
    (∀ s : List Char, (∀ c ∈ s, CC.digitDotComma.mem c = true) →
      ∀ v : ℚ, cleanNumber s = some v → 0 ≤ v) ∧
    (∀ v : ℚ, 0 ≤ v → 0 ≤ round6 v ∧ 0 ≤ round6 (v * (1/100))) := by
  constructor
  · intro s hs v h
    unfold cleanNumber at h
    split_ifs at h
    have hnotS : '-' ∉ s := fun hm => absurd (hs '-' hm) (by decide)
    have hnotF : '-' ∉ cleanFilter s := fun hm => by
      apply hnotS
      exact (mem_pyStrip_iff '-' s (by decide)).mp
        (List.mem_filter.mp hm).1
    have hnot2 : '-' ∉ commaDotResolve (cleanFilter s) := by
      intro hm
      apply hnotF
      unfold commaDotResolve at hm
      split_ifs at hm
      · exact (List.mem_filter.mp hm).1
      · obtain ⟨d, hd, he⟩ := List.mem_map.mp hm
        have hdm : d = '-' := by
          by_cases hd2 : d = ','
          · rw [if_pos hd2] at he
            cases he
          · rwa [if_neg hd2] at he
        rwa [hdm] at hd
      · exact (List.mem_filter.mp hm).1
    cases ht : commaDotResolve (cleanFilter s) with
    | nil =>
      rw [ht] at h
      rw [show pyFloat [] = none from rfl] at h
      cases h
    | cons c rest =>
      rw [ht] at h
      rw [ht] at hnot2
      have hc : c ≠ '-' := fun e => hnot2 (by simp [e])
      have he : pyFloat (c :: rest) = pyFloatUnsigned (c :: rest) := by
        unfold pyFloat
        split
        · next r heq =>
          injection heq with e1 _
          exact absurd e1.symm (fun e => hc e.symm)
        · rfl
      rw [he] at h
      exact pyFloatUnsigned_nonneg _ v h
  · intro v hv
    have key : ∀ x : ℚ, 0 ≤ x → 0 ≤ round6 x := by
      intro x hx
      unfold round6
      have hz : 0 ≤ roundHalfEvenZ (x * 1000000) := by
        unfold roundHalfEvenZ ratFloorZ
        have hnum : 0 ≤ (x * 1000000).num := Rat.num_nonneg.mpr (by positivity)
        have hden : (0:ℤ) ≤ ((x * 1000000).den : ℤ) := Int.ofNat_nonneg _
        have hfl := Int.fdiv_nonneg hnum hden
        split_ifs <;> omega
      have hzq : (0:ℚ) ≤ (roundHalfEvenZ (x * 1000000) : ℚ) := by
        exact_mod_cast hz
      positivity
    exact ⟨key v hv, key _ (by positivity)⟩

/-- Witness for the amended C10 at the numeric token `"436.20"`. -/
theorem cleanNumber_numeric_groups_nonneg_witness :
    cleanNumber "436.20".data = some (2181/5) ∧ (0:ℚ) ≤ 2181/5 := by
  have h : cleanNumber "436.20".data = some (2181/5) := by
    with_unfolding_all rfl
  exact ⟨h, cleanNumber_numeric_groups_nonneg.1 "436.20".data
    (by decide) (2181/5) h⟩
